import Mathlib

/-!
Verification of the credential-prompt engine, Android job assembler and iOS
scheme resolver of the eas-cli repository, via a shallow embedding.

The embedding translates `promptForCredentials.ts`, `prepareJob.ts` and the
iOS build starter into pure Lean functions.  Effectful collaborators (the
terminal prompt primitive, the logger, the filesystem, the secret source and
the git-root locator) are modelled explicitly: user input arrives as scripted
answer lists threaded through a `World` state, emitted prompts/log lines are
recorded as an event trace, and the filesystem is a finite map from paths to
entries.  All definitions are executable so that theorems can be checked on
concrete inputs.
-/

namespace EasCli

/-- The three question kinds of the credential schema (`type` field). -/
inductive QType where
  | file
  | string
  | password
  deriving DecidableEq

/-- One scalar input slot of a credential schema.  `base64Encode` is optional
in the source (`base64Encode?: boolean`); JavaScript truthiness makes an
absent value behave as `false`, so it is modelled as a plain `Bool`. -/
structure Question where
  field : String
  question : String
  type : QType
  base64Encode : Bool
  deriving DecidableEq

/-- Optional wording overrides for the opt-in question. -/
structure ProvideMethodQuestion where
  question : Option String
  expoGenerated : Option String
  userProvided : Option String

/-- A declarative credential schema.  The result type `T` of the source is
instantiated with the raw answer bag (an association list in schema order),
so `transformResultAsync` maps bags to bags. -/
structure CredentialSchema where
  name : String
  questions : List Question
  provideMethodQuestion : Option ProvideMethodQuestion
  transformResultAsync : Option (List (String × String) → List (String × String))

/-- Observable events: a prompt being issued (with its message), the one-time
expert warning, and an informational log line. -/
inductive Event where
  | asked (message : String)
  | warned
  | logged (message : String)
  deriving DecidableEq

/-- A filesystem entry: a regular file (its raw bytes) or a directory. -/
inductive FSEntry where
  | file (contents : List Nat)
  | dir
  deriving DecidableEq

/-- The fixed external environment: filesystem, home directory and current
working directory. -/
structure Env where
  fs : String → Option FSEntry
  home : String
  cwd : String

/-- The mutable world threaded through the engine: scripted answers for the
opt-in select prompt, for text/password prompts and for the scheme-choice
select prompt, the process-lifetime warning latch backing the source's
`once`-wrapped `EXPERT_PROMPT`, and the trace of emitted events. -/
structure World where
  optInAnswers : List Bool
  textInputs : List String
  schemeChoices : List String
  warned : Bool
  events : List Event
  deriving DecidableEq

/-- The base64 alphabet. -/
def base64Chars : List Char :=
  "ABCDEFGHIJKLMNOPQRSTUVWXYZabcdefghijklmnopqrstuvwxyz0123456789+/".data

def b64c (n : Nat) : Char := base64Chars.getD n '?'

/-- Standard base64 of a byte list, three bytes to four characters, with
`=` padding. -/
def base64Chunks : List Nat → List Char
  | [] => []
  | [b1] => [b64c (b1 / 4), b64c (b1 % 4 * 16), '=', '=']
  | [b1, b2] => [b64c (b1 / 4), b64c (b1 % 4 * 16 + b2 / 16), b64c (b2 % 16 * 4), '=']
  | b1 :: b2 :: b3 :: rest =>
      b64c (b1 / 4) :: b64c (b1 % 4 * 16 + b2 / 16) ::
        b64c (b2 % 16 * 4 + b3 / 64) :: b64c (b3 % 64) :: base64Chunks rest

/-- Modelled from the spec: reading a file "as base64" yields the base64
encoding of its bytes (`fs-extra` is not part of the repository sources). -/
def base64String (bytes : List Nat) : String := String.mk (base64Chunks bytes)

/-- Modelled from the spec: reading a file "as text" decodes its bytes to a
string; byte values are mapped to the corresponding code points. -/
def utf8String (bytes : List Nat) : String := String.mk (bytes.map Char.ofNat)

/-- The two read encodings used by `processAnswerAsync`. -/
inductive Enc where
  | utf8
  | base64

/-- Modelled from the spec: the filesystem read primitive; succeeds exactly on
regular files, decoding per the requested encoding. -/
def fsReadFile (env : Env) (p : String) (e : Enc) : Option String :=
  match env.fs p with
  | some (FSEntry.file contents) =>
      some (match e with
            | Enc.base64 => base64String contents
            | Enc.utf8 => utf8String contents)
  | _ => none

/-- Whitespace as trimmed by JavaScript `String.prototype.trim` (ASCII part). -/
def isWhitespaceChar (c : Char) : Bool :=
  c.toNat == 32 || c.toNat == 9 || c.toNat == 10 || c.toNat == 13 ||
    c.toNat == 11 || c.toNat == 12

/-- Model of JavaScript `filePath.trim()`: drop leading and trailing
whitespace. -/
def jsTrim (s : String) : String :=
  String.mk (((s.data.dropWhile isWhitespaceChar).reverse.dropWhile isWhitespaceChar).reverse)

/-- Model of POSIX `path.isAbsolute`: the path starts with a slash. -/
def isAbsolutePath (s : String) : Bool :=
  match s.data with
  | c :: _ => decide (c = '/')
  | [] => false

/-- Model of the `untildify` package: replace a leading `~` by the home
directory when it is the whole string or is followed by a slash. -/
def untildify (home : String) (s : String) : String :=
  match s.data with
  | c :: rest =>
      if c = '~' then
        match rest with
        | [] => home
        | c2 :: _ => if c2 = '/' then home ++ String.mk rest else s
      else s
  | [] => s

/-- Split a character list on `/` into path components. -/
def splitComponents : List Char → List (List Char)
  | [] => [[]]
  | c :: rest =>
      let r := splitComponents rest
      if c = '/' then [] :: r
      else
        match r with
        | [] => [[c]]
        | comp :: comps => (c :: comp) :: comps

/-- Normalize the components of an absolute path: drop empty and `.`
components, let `..` pop the previous component. -/
def normAbs (comps : List (List Char)) : List (List Char) :=
  comps.foldl
    (fun acc c =>
      if c = ([] : List Char) ∨ c = ['.'] then acc
      else if c = ['.', '.'] then acc.dropLast
      else acc ++ [c])
    []

/-- Model of Node `path.resolve` applied to a relative path with an absolute
current working directory: join and normalize. -/
def resolvePath (cwd p : String) : String :=
  String.mk ('/' :: List.intercalate ['/'] (normAbs (splitComponents (cwd ++ "/" ++ p).data)))

/-- Source `produceAbsolutePath` from the source: trim, untildify, then resolve
against the current working directory unless already absolute. -/
def produceAbsolutePath (env : Env) (filePath : String) : String :=
  let untildified := untildify env.home (jsTrim filePath)
  if !isAbsolutePath untildified then resolvePath env.cwd untildified else untildified

/-- Source `validateNonEmptyInput` from the source. -/
def validateNonEmptyInput (val : String) : Bool := decide (val ≠ "")

/-- Result of a prompt `validate` hook: `true`, or a message to redisplay. -/
inductive VResult where
  | ok
  | err (message : String)

/-- Source `validateExistingFileAsync` from the source: the path must name an
existing regular file, with distinct messages for the two failure ways. -/
def validateExistingFileAsync (env : Env) (filePath : String) : VResult :=
  match env.fs filePath with
  | some (FSEntry.file _) => VResult.ok
  | some FSEntry.dir => VResult.err "Input is not a file."
  | none => VResult.err "File does not exist."

/-- Prompt kinds of the prompt primitive's question descriptor. -/
inductive PType where
  | text
  | password
  | select
  deriving DecidableEq

/-- Defunctionalized `format` hooks occurring in the source. -/
inductive FormatKind where
  | absPath
  deriving DecidableEq

/-- Defunctionalized `validate` hooks occurring in the source. -/
inductive ValidateKind where
  | nonEmpty
  | existingFile
  deriving DecidableEq

/-- The prompt primitive's question descriptor (`PromptQuestion`). -/
structure PromptQuestion where
  ptype : PType
  name : String
  message : String
  initial : Option String
  format : Option FormatKind
  validate : Option ValidateKind
  deriving DecidableEq

/-- Source `buildQuestionObject` from the source: per question type, select prompt
kind, default value, format hook and validate hook. -/
def buildQuestionObject (q : Question) (initialValue : Option String) : PromptQuestion :=
  match q.type with
  | QType.string =>
      { ptype := PType.text, name := "input", initial := initialValue,
        message := q.question, format := none, validate := some ValidateKind.nonEmpty }
  | QType.file =>
      { ptype := PType.text, name := "input", initial := none,
        message := q.question, format := some FormatKind.absPath,
        validate := some ValidateKind.existingFile }
  | QType.password =>
      { ptype := PType.password, name := "input", initial := none,
        message := q.question, format := none, validate := some ValidateKind.nonEmpty }

/-- Interpretation of a `format` hook. -/
def applyFormat (env : Env) (fk : Option FormatKind) (input : String) : String :=
  match fk with
  | some FormatKind.absPath => produceAbsolutePath env input
  | none => input

/-- Interpretation of a `validate` hook as accept/reject. -/
def applyValidate (env : Env) (vk : Option ValidateKind) (input : String) : Bool :=
  match vk with
  | none => true
  | some ValidateKind.nonEmpty => validateNonEmptyInput input
  | some ValidateKind.existingFile =>
      match validateExistingFileAsync env input with
      | VResult.ok => true
      | VResult.err _ => false

/-- Modelled from the spec: the terminal prompt primitive `promptAsync` for
text/password questions (the `prompts` module is not under the provided
sources).  Each issue of the question records an `asked` event and consumes
one scripted raw input; `format` is applied to the raw input before
validation, and on a non-true validation the same question is re-issued.
Returns `none` when the script is exhausted. -/
def promptTextLoop (env : Env) (q : PromptQuestion) :
    List String → List Event → Option String × List String × List Event
  | [], evs => (none, [], evs)
  | raw :: rest, evs =>
      let evs2 := evs ++ [Event.asked q.message]
      let formatted := applyFormat env q.format raw
      if applyValidate env q.validate formatted then (some formatted, rest, evs2)
      else promptTextLoop env q rest evs2

/-- Source `processAnswerAsync` from the source: file questions store the file's
contents (base64 or text per `base64Encode`); other types store the input. -/
def processAnswerAsync (env : Env) (q : Question) (input : String) : Option String :=
  match q.type with
  | QType.file => fsReadFile env input (if q.base64Encode then Enc.base64 else Enc.utf8)
  | QType.string => some input
  | QType.password => some input

/-- Source `askQuestionAndProcessAnswerAsync` from the source: build the question
descriptor, run the prompt, post-process the answer. -/
def askQuestionAndProcessAnswerAsync (env : Env) (q : Question) (initialValue : Option String)
    (w : World) : Option String × World :=
  match promptTextLoop env (buildQuestionObject q initialValue) w.textInputs w.events with
  | (none, rest, evs) => (none, { w with textInputs := rest, events := evs })
  | (some input, rest, evs) =>
      match processAnswerAsync env q input with
      | none => (none, { w with textInputs := rest, events := evs })
      | some ans => (some ans, { w with textInputs := rest, events := evs })

/-- The question loop of `getCredentialsFromUserAsync`: one resolved answer
per question, keyed by the question's field, in schema order. -/
def collectAnswers (env : Env) (iv : String → Option String) :
    List Question → World → Option (List (String × String)) × World
  | [], w => (some [], w)
  | q :: qs, w =>
      match askQuestionAndProcessAnswerAsync env q (iv q.field) w with
      | (none, w1) => (none, w1)
      | (some ans, w1) =>
          match collectAnswers env iv qs w1 with
          | (none, w2) => (none, w2)
          | (some bag, w2) => (some ((q.field, ans) :: bag), w2)

/-- Source `getCredentialsFromUserAsync` from the source: run the question loop,
then apply `transformResultAsync` to the raw answer bag when defined. -/
def getCredentialsFromUserAsync (env : Env) (schema : CredentialSchema)
    (iv : String → Option String) (w : World) :
    Option (List (String × String)) × World :=
  match collectAnswers env iv schema.questions w with
  | (none, w1) => (none, w1)
  | (some results, w1) =>
      match schema.transformResultAsync with
      | some f => (some (f results), w1)
      | none => (some results, w1)

/-- The message of the opt-in (provide-method) question, with the source's
`??` fallback chain. -/
def optInMessage (schema : CredentialSchema) : String :=
  match schema.provideMethodQuestion with
  | some pmq =>
      match pmq.question with
      | some q => q
      | none => "Will you provide your own " ++ schema.name ++ "?"
  | none => "Will you provide your own " ++ schema.name ++ "?"

/-- Source `willUserProvideCredentialsAsync` from the source; the select prompt is
modelled from the spec (one `asked` event, one scripted boolean consumed:
`false` for the generated path, `true` for user-provided). -/
def willUserProvideCredentialsAsync (schema : CredentialSchema) (w : World) :
    Option Bool × World :=
  match w.optInAnswers with
  | [] => (none, w)
  | a :: rest =>
      (some a,
        { w with optInAnswers := rest, events := w.events ++ [Event.asked (optInMessage schema)] })

/-- Source `EXPERT_PROMPT` from the source: a `lodash.once`-wrapped warning, modelled
as a process-lifetime latch in the world; it logs the warning on the first
invocation only. -/
def EXPERT_PROMPT (w : World) : World :=
  if w.warned then w else { w with warned := true, events := w.events ++ [Event.warned] }

/-- Source `askForUserProvidedAsync` from the source: ask the opt-in question;
on decline return null (`some none`); on accept emit the one-time warning and
run the question sequence. -/
def askForUserProvidedAsync (env : Env) (schema : CredentialSchema)
    (iv : String → Option String) (w : World) :
    Option (Option (List (String × String))) × World :=
  match willUserProvideCredentialsAsync schema w with
  | (none, w1) => (none, w1)
  | (some true, w1) =>
      match getCredentialsFromUserAsync env schema iv (EXPERT_PROMPT w1) with
      | (none, w3) => (none, w3)
      | (some bag, w3) => (some (some bag), w3)
  | (some false, w1) => (some none, w1)

/-- C1: if the user's answer to the opt-in question is false,
`askForUserProvidedAsync` returns null and the only event added is the opt-in
select itself — no per-field prompt is issued and no other state changes. -/
theorem askForUserProvided_declined (env : Env) (schema : CredentialSchema)
    (iv : String → Option String) (w : World) (rest : List Bool)
    (h : w.optInAnswers = false :: rest) :
    askForUserProvidedAsync env schema iv w =
      (some none,
        { w with optInAnswers := rest,
                 events := w.events ++ [Event.asked (optInMessage schema)] }) := by
  simp [askForUserProvidedAsync, willUserProvideCredentialsAsync, h]

def envA : Env := { fs := fun _ => none, home := "/home/u", cwd := "/w" }

def schemaA : CredentialSchema :=
  { name := "Keystore", questions := [], provideMethodQuestion := none,
    transformResultAsync := none }

def worldA : World :=
  { optInAnswers := [false], textInputs := ["x"], schemeChoices := [],
    warned := false, events := [] }

/-- C1 witness: the declined opt-in at a concrete schema and world. -/
theorem askForUserProvided_declined_witness :
    worldA.optInAnswers = false :: [] ∧
    askForUserProvidedAsync envA schemaA (fun _ => none) worldA =
      (some none,
        { worldA with optInAnswers := [],
                      events := worldA.events ++ [Event.asked (optInMessage schemaA)] }) :=
  ⟨rfl, askForUserProvided_declined envA schemaA (fun _ => none) worldA [] rfl⟩

/-- Number of expert-warning events in a trace. -/
def warnCount (evs : List Event) : Nat := evs.countP (fun e => decide (e = Event.warned))

lemma warnCount_append (a b : List Event) : warnCount (a ++ b) = warnCount a + warnCount b := by
  simp [warnCount, List.countP_append]

lemma warnCount_asked (m : String) : warnCount [Event.asked m] = 0 := by
  simp [warnCount]

lemma warnCount_warned : warnCount [Event.warned] = 1 := by
  simp [warnCount]

lemma promptTextLoop_warnCount (env : Env) (q : PromptQuestion) :
    ∀ (inputs : List String) (evs : List Event),
      warnCount (promptTextLoop env q inputs evs).2.2 = warnCount evs := by
  intro inputs
  induction inputs with
  | nil => intro evs; simp [promptTextLoop]
  | cons raw rest ih =>
      intro evs
      simp only [promptTextLoop]
      by_cases h : applyValidate env q.validate (applyFormat env q.format raw) = true
      · simp [h, warnCount_append, warnCount_asked]
      · rw [if_neg h, ih (evs ++ [Event.asked q.message]), warnCount_append, warnCount_asked]
        omega

lemma askQuestion_preserves (env : Env) (q : Question) (ivf : Option String) (w : World) :
    (askQuestionAndProcessAnswerAsync env q ivf w).2.warned = w.warned ∧
    warnCount (askQuestionAndProcessAnswerAsync env q ivf w).2.events = warnCount w.events := by
  unfold askQuestionAndProcessAnswerAsync
  have h := promptTextLoop_warnCount env (buildQuestionObject q ivf) w.textInputs w.events
  split
  next o rest evs heq =>
    rw [heq] at h
    exact ⟨rfl, h⟩
  next input rest evs heq =>
    rw [heq] at h
    split
    next => exact ⟨rfl, h⟩
    next => exact ⟨rfl, h⟩

lemma collectAnswers_preserves (env : Env) (iv : String → Option String) :
    ∀ (qs : List Question) (w : World),
      (collectAnswers env iv qs w).2.warned = w.warned ∧
      warnCount (collectAnswers env iv qs w).2.events = warnCount w.events := by
  intro qs
  induction qs with
  | nil => intro w; simp [collectAnswers]
  | cons q qs ih =>
      intro w
      have hq := askQuestion_preserves env q (iv q.field) w
      simp only [collectAnswers]
      split
      next w1 heq =>
        rw [heq] at hq
        exact hq
      next ans w1 heq =>
        rw [heq] at hq
        have hc := ih w1
        split
        next w2 heq2 =>
          rw [heq2] at hc
          exact ⟨hc.1.trans hq.1, hc.2.trans hq.2⟩
        next bag w2 heq2 =>
          rw [heq2] at hc
          exact ⟨hc.1.trans hq.1, hc.2.trans hq.2⟩

lemma getCredentials_preserves (env : Env) (schema : CredentialSchema)
    (iv : String → Option String) (w : World) :
    (getCredentialsFromUserAsync env schema iv w).2.warned = w.warned ∧
    warnCount (getCredentialsFromUserAsync env schema iv w).2.events = warnCount w.events := by
  unfold getCredentialsFromUserAsync
  have hc := collectAnswers_preserves env iv schema.questions w
  split
  next w1 heq =>
    rw [heq] at hc
    exact hc
  next results w1 heq =>
    rw [heq] at hc
    split
    next => exact hc
    next => exact hc

lemma EXPERT_PROMPT_latch (w : World)
    (h : warnCount w.events = (if w.warned then 1 else 0)) :
    warnCount (EXPERT_PROMPT w).events = 1 ∧ (EXPERT_PROMPT w).warned = true := by
  unfold EXPERT_PROMPT
  cases hw : w.warned with
  | true =>
      rw [hw] at h
      simp only [if_true]
      exact ⟨by simpa using h, hw⟩
  | false =>
      rw [hw] at h
      simp only [Bool.false_eq_true, if_false]
      refine ⟨?_, by simp⟩
      rw [warnCount_append, warnCount_warned]
      simpa using h

/-- Whether the next call's scripted opt-in answer takes the accept path. -/
def callAccepted (w : World) : Bool :=
  match w.optInAnswers with
  | true :: _ => true
  | _ => false

lemma willUserProvide_shape (schema : CredentialSchema) (w : World) :
    ∀ (o : Option Bool) (w1 : World),
      willUserProvideCredentialsAsync schema w = (o, w1) →
      (o = none ∧ w1 = w ∧ callAccepted w = false) ∨
      (∃ a rest, w.optInAnswers = a :: rest ∧ o = some a ∧ callAccepted w = a ∧
        w1 = { w with optInAnswers := rest,
                      events := w.events ++ [Event.asked (optInMessage schema)] }) := by
  intro o w1 h
  unfold willUserProvideCredentialsAsync at h
  rcases hopt : w.optInAnswers with _ | ⟨a, rest⟩
  · rw [hopt] at h
    injection h with ho hw
    exact Or.inl ⟨ho.symm, hw.symm, by simp [callAccepted, hopt]⟩
  · rw [hopt] at h
    injection h with ho hw
    refine Or.inr ⟨a, rest, rfl, ho.symm, ?_, hw.symm⟩
    cases a <;> simp [callAccepted, hopt]

lemma askForUserProvided_world (env : Env) (schema : CredentialSchema)
    (iv : String → Option String) (w : World) :
    (askForUserProvidedAsync env schema iv w).2 =
      (if callAccepted w
       then (getCredentialsFromUserAsync env schema iv
              (EXPERT_PROMPT (willUserProvideCredentialsAsync schema w).2)).2
       else (willUserProvideCredentialsAsync schema w).2) := by
  unfold askForUserProvidedAsync
  split
  next w1 heq =>
    rcases willUserProvide_shape schema w none w1 heq with
      ⟨_, hw1, hacc⟩ | ⟨a, rest, _, ha, _, _⟩
    · rw [hacc, if_neg (by simp), heq, hw1]
    · exact absurd ha.symm (Option.some_ne_none a)
  next w1 heq =>
    rcases willUserProvide_shape schema w (some true) w1 heq with
      ⟨ho, _, _⟩ | ⟨a, rest, _, ha, hacc, _⟩
    · exact absurd ho (Option.some_ne_none true)
    · have haT : a = true := (Option.some.inj ha).symm
      rw [haT] at hacc
      rw [hacc, if_pos rfl, heq]
      split
      next w3 heq2 => rw [heq2]
      next bag w3 heq2 => rw [heq2]
  next w1 heq =>
    rcases willUserProvide_shape schema w (some false) w1 heq with
      ⟨ho, _, _⟩ | ⟨a, rest, _, ha, hacc, _⟩
    · exact absurd ho (Option.some_ne_none false)
    · have haF : a = false := (Option.some.inj ha).symm
      rw [haF] at hacc
      rw [hacc, if_neg (by simp), heq]

lemma askForUserProvided_warn_step (env : Env) (schema : CredentialSchema)
    (iv : String → Option String) (w : World)
    (hInv : warnCount w.events = (if w.warned then 1 else 0)) :
    warnCount (askForUserProvidedAsync env schema iv w).2.events =
      (if (askForUserProvidedAsync env schema iv w).2.warned then 1 else 0) ∧
    (askForUserProvidedAsync env schema iv w).2.warned = (w.warned || callAccepted w) := by
  rw [askForUserProvided_world]
  rcases hwill : willUserProvideCredentialsAsync schema w with ⟨o, w1⟩
  have hshape := willUserProvide_shape schema w o w1 hwill
  have hw1inv : warnCount w1.events = (if w1.warned then 1 else 0) ∧ w1.warned = w.warned := by
    rcases hshape with ⟨_, hw1, _⟩ | ⟨a, rest, _, _, _, hw1⟩
    · rw [hw1]; exact ⟨hInv, rfl⟩
    · rw [hw1]
      refine ⟨?_, rfl⟩
      simpa [warnCount_append, warnCount_asked] using hInv
  cases hacc : callAccepted w with
  | false =>
      rw [if_neg (by simp)]
      show (warnCount w1.events = if w1.warned = true then 1 else 0) ∧
        w1.warned = (w.warned || false)
      refine ⟨hw1inv.1, ?_⟩
      rw [Bool.or_false]
      exact hw1inv.2
  | true =>
      rw [if_pos rfl]
      show (warnCount (getCredentialsFromUserAsync env schema iv (EXPERT_PROMPT w1)).2.events =
          if (getCredentialsFromUserAsync env schema iv (EXPERT_PROMPT w1)).2.warned = true
          then 1 else 0) ∧
        (getCredentialsFromUserAsync env schema iv (EXPERT_PROMPT w1)).2.warned = (w.warned || true)
      have h2 := EXPERT_PROMPT_latch w1 hw1inv.1
      have hg := getCredentials_preserves env schema iv (EXPERT_PROMPT w1)
      constructor
      · rw [hg.2, h2.1, hg.1, h2.2]
        simp
      · rw [hg.1, h2.2, Bool.or_true]

/-- One invocation of the engine within a process: the schema and the
initial-values mapping passed to `askForUserProvidedAsync`. -/
structure CallSpec where
  schema : CredentialSchema
  initialValues : String → Option String

/-- A sequence of `askForUserProvidedAsync` calls within one process,
threading the process state. -/
def runCalls (env : Env) : List CallSpec → World → World
  | [], w => w
  | c :: cs, w => runCalls env cs (askForUserProvidedAsync env c.schema c.initialValues w).2

/-- Whether some call of the sequence takes the user-accepts path. -/
def anyCallAccepts (env : Env) : List CallSpec → World → Bool
  | [], _ => false
  | c :: cs, w =>
      callAccepted w ||
        anyCallAccepts env cs (askForUserProvidedAsync env c.schema c.initialValues w).2

lemma runCalls_warnInv (env : Env) :
    ∀ (cs : List CallSpec) (w : World),
      warnCount w.events = (if w.warned then 1 else 0) →
      warnCount (runCalls env cs w).events = (if (runCalls env cs w).warned then 1 else 0) ∧
      (runCalls env cs w).warned = (w.warned || anyCallAccepts env cs w) := by
  intro cs
  induction cs with
  | nil => intro w h; simpa [runCalls, anyCallAccepts] using h
  | cons c cs ih =>
      intro w h
      have hstep := askForUserProvided_warn_step env c.schema c.initialValues w h
      simp only [runCalls, anyCallAccepts]
      have hrec := ih _ hstep.1
      refine ⟨hrec.1, ?_⟩
      rw [hrec.2, hstep.2]
      cases w.warned <;> cases callAccepted w <;> simp

/-- C2: across any sequence of `askForUserProvidedAsync` calls in one process
(starting from the fresh process state: latch unset, no warning emitted), the
manual-credentials warning is emitted at most once; it is emitted exactly once
when some call takes the user-accepts path and never otherwise. -/
theorem expertWarning_once (env : Env) (cs : List CallSpec) (w0 : World)
    (h1 : w0.warned = false) (h2 : warnCount w0.events = 0) :
    warnCount (runCalls env cs w0).events ≤ 1 ∧
    warnCount (runCalls env cs w0).events =
      (if anyCallAccepts env cs w0 then 1 else 0) := by
  have hInv : warnCount w0.events = (if w0.warned then 1 else 0) := by
    rw [h1, h2]; rfl
  have h := runCalls_warnInv env cs w0 hInv
  have hfin : (runCalls env cs w0).warned = anyCallAccepts env cs w0 := by
    rw [h.2, h1]; simp
  constructor
  · rw [h.1]; split <;> omega
  · rw [h.1, hfin]

def csB : List CallSpec :=
  [{ schema := schemaA, initialValues := fun _ => none },
   { schema := schemaA, initialValues := fun _ => none }]

def worldB : World :=
  { optInAnswers := [true, true], textInputs := [], schemeChoices := [],
    warned := false, events := [] }

/-- C2 witness: two consecutive accepting calls in one process. -/
theorem expertWarning_once_witness :
    worldB.warned = false ∧ warnCount worldB.events = 0 ∧
    (warnCount (runCalls envA csB worldB).events ≤ 1 ∧
     warnCount (runCalls envA csB worldB).events =
       (if anyCallAccepts envA csB worldB then 1 else 0)) :=
  ⟨rfl, rfl, expertWarning_once envA csB worldB rfl rfl⟩

lemma collectAnswers_keys (env : Env) (iv : String → Option String) :
    ∀ (qs : List Question) (w : World) (bag : List (String × String)) (w' : World),
      collectAnswers env iv qs w = (some bag, w') →
      bag.map Prod.fst = qs.map Question.field := by
  intro qs
  induction qs with
  | nil =>
      intro w bag w' h
      simp only [collectAnswers] at h
      injection h with h1 h2
      rw [← Option.some.inj h1]
      simp
  | cons q qs ih =>
      intro w bag w' h
      simp only [collectAnswers] at h
      split at h
      next w1 heq =>
        injection h with h1 h2
        exact Option.noConfusion h1
      next ans w1 heq =>
        split at h
        next w2 heq2 =>
          injection h with h1 h2
          exact Option.noConfusion h1
        next bag2 w2 heq2 =>
          injection h with h1 h2
          rw [← Option.some.inj h1]
          simp only [List.map_cons, List.map]
          rw [ih w1 bag2 w2 heq2]

/-- C3: a successful `getCredentialsFromUserAsync` run resolves one answer per
question in schema order via the question loop `collectAnswers`; absent a
transform, the returned bundle is exactly that raw answer bag, whose key list
equals the schema's field list; with a transform, the returned value is the
transform applied to that bag. -/
theorem getCredentials_bundle (env : Env) (schema : CredentialSchema)
    (iv : String → Option String) (w : World) (res : List (String × String)) (w' : World)
    (h : getCredentialsFromUserAsync env schema iv w = (some res, w')) :
    ∃ raw, collectAnswers env iv schema.questions w = (some raw, w') ∧
      raw.map Prod.fst = schema.questions.map Question.field ∧
      res = (match schema.transformResultAsync with
             | some f => f raw
             | none => raw) := by
  unfold getCredentialsFromUserAsync at h
  split at h
  next w1 heq =>
    injection h with h1 h2
    exact Option.noConfusion h1
  next results w1 heq =>
    split at h
    next f hf =>
      injection h with h1 h2
      refine ⟨results, ?_, collectAnswers_keys env iv schema.questions w results w1 heq, ?_⟩
      · rw [heq, h2]
      · exact (Option.some.inj h1).symm
    next hf =>
      injection h with h1 h2
      refine ⟨results, ?_, collectAnswers_keys env iv schema.questions w results w1 heq, ?_⟩
      · rw [heq, h2]
      · exact (Option.some.inj h1).symm

def schemaC : CredentialSchema :=
  { name := "Push Key",
    questions := [{ field := "keyId", question := "Key ID:", type := QType.string,
                    base64Encode := false }],
    provideMethodQuestion := none, transformResultAsync := none }

def worldC : World :=
  { optInAnswers := [], textInputs := ["AB12"], schemeChoices := [],
    warned := false, events := [] }

/-- C3 witness: a one-question schema answered from a concrete script. -/
theorem getCredentials_bundle_witness :
    getCredentialsFromUserAsync envA schemaC (fun _ => none) worldC =
      (some [("keyId", "AB12")],
        { worldC with textInputs := [], events := [Event.asked "Key ID:"] }) ∧
    (∃ raw, collectAnswers envA (fun _ => none) schemaC.questions worldC =
        (some raw, { worldC with textInputs := [], events := [Event.asked "Key ID:"] }) ∧
      raw.map Prod.fst = schemaC.questions.map Question.field ∧
      [("keyId", "AB12")] = (match schemaC.transformResultAsync with
             | some f => f raw
             | none => raw)) :=
  ⟨rfl, getCredentials_bundle envA schemaC (fun _ => none) worldC [("keyId", "AB12")]
    { worldC with textInputs := [], events := [Event.asked "Key ID:"] } rfl⟩

/-- C4: for a file-type question whose (validated) input names an existing
regular file, the stored answer is the file's contents — base64 encoded when
`base64Encode` is set, decoded as text otherwise — never the path; for string
and password questions the stored answer is the prompt input unchanged. -/
theorem processAnswer_contents (env : Env) (q : Question) (input : String) :
    (∀ bytes, q.type = QType.file → env.fs input = some (FSEntry.file bytes) →
      processAnswerAsync env q input =
        some (if q.base64Encode then base64String bytes else utf8String bytes)) ∧
    ((q.type = QType.string ∨ q.type = QType.password) →
      processAnswerAsync env q input = some input) := by
  constructor
  · intro bytes hft hfs
    cases hb : q.base64Encode <;>
      simp [processAnswerAsync, hft, hb, fsReadFile, hfs]
  · rintro (hs | hp)
    · simp [processAnswerAsync, hs]
    · simp [processAnswerAsync, hp]

def envD : Env :=
  { fs := fun p => if p = "/w/cert.p12" then some (FSEntry.file [77, 97, 110]) else none,
    home := "/home/u", cwd := "/w" }

def questionD : Question :=
  { field := "certP12", question := "Path to P12 file:", type := QType.file,
    base64Encode := true }

/-- C4 witness: a base64-encoded file question over the three bytes of
`Man`, whose stored answer is the exact base64 encoding `TWFu`. -/
theorem processAnswer_contents_witness :
    questionD.type = QType.file ∧
    envD.fs "/w/cert.p12" = some (FSEntry.file [77, 97, 110]) ∧
    processAnswerAsync envD questionD "/w/cert.p12" =
      some (if questionD.base64Encode then base64String [77, 97, 110]
            else utf8String [77, 97, 110]) ∧
    base64String [77, 97, 110] = "TWFu" :=
  ⟨rfl, by decide,
   (processAnswer_contents envD questionD "/w/cert.p12").1 [77, 97, 110] rfl (by decide),
   by decide⟩

/-- C6: the prompt's default (`initial`) value is seeded from the supplied
initial value only for string-type questions; password and file questions
never pre-fill a default. -/
theorem questionObject_initial (q : Question) (initialValue : Option String) :
    (buildQuestionObject q initialValue).initial =
      (if q.type = QType.string then initialValue else none) := by
  cases hq : q.type <;> simp [buildQuestionObject, hq]

/-- Modelled from the spec: the runtime value of the external
`Workflow.Generic` enum member (TypeScript string enums are strings at
runtime, so a profile's workflow field may hold any string). -/
def workflowGeneric : String := "generic"

/-- Modelled from the spec: the runtime value of the external
`Workflow.Managed` enum member. -/
def workflowManaged : String := "managed"

/-- The keystore part of the Android credentials bundle. -/
structure Keystore where
  keystore : String
  keystorePassword : String
  keyAlias : String
  keyPassword : String
  deriving DecidableEq

/-- The Android credentials bundle consumed by job assembly. -/
structure AndroidCredentials where
  keystore : Keystore
  deriving DecidableEq

/-- Source `JobData` from the source: archive URL plus optional credentials. -/
structure JobData where
  archiveUrl : String
  credentials : Option AndroidCredentials
  deriving DecidableEq

/-- The build profile facts used by the Android job assembler. -/
structure BuildProfile where
  workflow : String
  gradleCommand : Option String
  artifactPath : Option String
  deriving DecidableEq

/-- The command context part used by job assembly. -/
structure CommandCtx where
  projectDir : String
  deriving DecidableEq

/-- The Android build context. -/
structure BuildCtx where
  commandCtx : CommandCtx
  buildProfile : BuildProfile
  deriving DecidableEq

/-- The keystore shape inside a job's `secrets.buildCredentials`. -/
structure JobKeystore where
  dataBase64 : String
  keystorePassword : String
  keyAlias : String
  keyPassword : String
  deriving DecidableEq

/-- The `buildCredentials` object of a job's secrets. -/
structure BuildCredentials where
  keystore : JobKeystore
  deriving DecidableEq

/-- The `secrets` object of a job. -/
structure JobSecrets where
  buildCredentials : Option BuildCredentials
  secretEnvs : Option (List (String × String))
  deriving DecidableEq

/-- Source `CommonJobProperties` from the source. -/
structure CommonJobProperties where
  platform : String
  projectUrl : String
  secrets : JobSecrets
  deriving DecidableEq

/-- The draft job accumulated before sanitization; managed jobs leave the
generic-only fields empty. -/
structure JobDraft where
  platform : String
  projectUrl : String
  secrets : JobSecrets
  type : String
  gradleCommand : Option String
  artifactPath : Option String
  projectRootDirectory : String
  deriving DecidableEq

/-- Modelled from the spec: the job assembler's collaborators — the
secret-env source `readSecretEnvsAsync`, the repository root locator
`gitRootDirectoryAsync` and the process working directory (their modules are
not under the provided sources). -/
structure JobEnv where
  secretEnvs : String → Option (List (String × String))
  gitRootDirectory : String
  cwd : String

/-- Length of the common prefix of two component lists. -/
def commonPrefixLen : List (List Char) → List (List Char) → Nat
  | a :: as, b :: bs => if a = b then commonPrefixLen as bs + 1 else 0
  | _, _ => 0

/-- Modelled from the spec: Node `path.relative` between two absolute paths —
drop the shared prefix of normalized components, then one `..` per remaining
component of the base followed by the remaining components of the target;
empty when the two coincide. -/
def relativePath (base target : String) : String :=
  let b := normAbs (splitComponents base.data)
  let t := normAbs (splitComponents target.data)
  let k := commonPrefixLen b t
  String.mk (List.intercalate ['/'] (List.replicate (b.length - k) ['.', '.'] ++ t.drop k))

/-- Source `prepareJobCommonAsync` from the source: platform, project URL and the
secrets object — secret envs when defined, and a field-for-field keystore
copy exactly when credentials are present. -/
def prepareJobCommonAsync (jenv : JobEnv) (ctx : BuildCtx) (jobData : JobData) :
    CommonJobProperties :=
  { platform := "android",
    projectUrl := jobData.archiveUrl,
    secrets :=
      { secretEnvs := jenv.secretEnvs ctx.commandCtx.projectDir,
        buildCredentials :=
          match jobData.credentials with
          | some credentials =>
              some { keystore :=
                       { dataBase64 := credentials.keystore.keystore,
                         keystorePassword := credentials.keystore.keystorePassword,
                         keyAlias := credentials.keystore.keyAlias,
                         keyPassword := credentials.keystore.keyPassword } }
          | none => none } }

/-- Source `prepareGenericJobAsync` from the source: common properties plus the
generic type tag, the profile's build command and artifact path, and the
repository-relative project root (`.` when the repo root is the cwd). -/
def prepareGenericJobAsync (jenv : JobEnv) (ctx : BuildCtx) (jobData : JobData)
    (buildProfile : BuildProfile) : JobDraft :=
  let common := prepareJobCommonAsync jenv ctx jobData
  let r := relativePath jenv.gitRootDirectory jenv.cwd
  { platform := common.platform, projectUrl := common.projectUrl, secrets := common.secrets,
    type := workflowGeneric,
    gradleCommand := buildProfile.gradleCommand,
    artifactPath := buildProfile.artifactPath,
    projectRootDirectory := if r = "" then "." else r }

/-- Source `prepareManagedJobAsync` from the source: common properties plus the
managed type tag and the repository-relative project root only. -/
def prepareManagedJobAsync (jenv : JobEnv) (ctx : BuildCtx) (jobData : JobData)
    (buildProfile : BuildProfile) : JobDraft :=
  let common := prepareJobCommonAsync jenv ctx jobData
  let r := relativePath jenv.gitRootDirectory jenv.cwd
  { platform := common.platform, projectUrl := common.projectUrl, secrets := common.secrets,
    type := workflowManaged,
    gradleCommand := none,
    artifactPath := none,
    projectRootDirectory := if r = "" then "." else r }

/-- Modelled from the spec: `sanitizeJob` validates/normalizes the draft and
rejects structurally invalid input; on the well-typed drafts produced here it
returns the job unchanged, rejecting an unknown type tag. -/
def sanitizeJob (draft : JobDraft) : Except String JobDraft :=
  if draft.type = workflowGeneric ∨ draft.type = workflowManaged then Except.ok draft
  else Except.error "invalid job"

/-- Source `prepareJobAsync` from the source: dispatch on the profile's workflow,
sanitize the branch's draft, and fail on any other workflow value. -/
def prepareJobAsync (jenv : JobEnv) (ctx : BuildCtx) (jobData : JobData) :
    Except String JobDraft :=
  if ctx.buildProfile.workflow = workflowGeneric then
    sanitizeJob (prepareGenericJobAsync jenv ctx jobData ctx.buildProfile)
  else if ctx.buildProfile.workflow = workflowManaged then
    sanitizeJob (prepareManagedJobAsync jenv ctx jobData ctx.buildProfile)
  else
    Except.error "Unknown workflow. Shouldn't happen"

/-- C7: a build profile whose workflow is neither Generic nor Managed makes
`prepareJobAsync` raise the fatal internal error; no job value is produced
and no known workflow is silently substituted. -/
theorem prepareJob_unknown_workflow (jenv : JobEnv) (ctx : BuildCtx) (jobData : JobData)
    (h1 : ctx.buildProfile.workflow ≠ workflowGeneric)
    (h2 : ctx.buildProfile.workflow ≠ workflowManaged) :
    prepareJobAsync jenv ctx jobData = Except.error "Unknown workflow. Shouldn't happen" := by
  simp [prepareJobAsync, h1, h2]

def jenvE : JobEnv :=
  { secretEnvs := fun _ => none, gitRootDirectory := "/repo", cwd := "/repo" }

def ctxE : BuildCtx :=
  { commandCtx := { projectDir := "/repo" },
    buildProfile := { workflow := "ios", gradleCommand := none, artifactPath := none } }

def jobDataE : JobData := { archiveUrl := "https://x/archive.tar.gz", credentials := none }

/-- C7 witness: the unknown workflow value `ios`. -/
theorem prepareJob_unknown_workflow_witness :
    ctxE.buildProfile.workflow ≠ workflowGeneric ∧
    ctxE.buildProfile.workflow ≠ workflowManaged ∧
    prepareJobAsync jenvE ctxE jobDataE =
      Except.error "Unknown workflow. Shouldn't happen" :=
  ⟨by decide, by decide,
   prepareJob_unknown_workflow jenvE ctxE jobDataE (by decide) (by decide)⟩

/-- C8: the assembled job's `secrets.buildCredentials` is present exactly when
`jobData.credentials` is present, and then its keystore is a field-for-field
copy: `dataBase64` from `keystore`, and the password, alias and key-password
fields unchanged — nothing derived, nothing extra. -/
theorem jobSecrets_buildCredentials (jenv : JobEnv) (ctx : BuildCtx) (jobData : JobData) :
    ((prepareJobCommonAsync jenv ctx jobData).secrets.buildCredentials.isSome ↔
      jobData.credentials.isSome) ∧
    (∀ c, jobData.credentials = some c →
      (prepareJobCommonAsync jenv ctx jobData).secrets.buildCredentials =
        some { keystore :=
                 { dataBase64 := c.keystore.keystore,
                   keystorePassword := c.keystore.keystorePassword,
                   keyAlias := c.keystore.keyAlias,
                   keyPassword := c.keystore.keyPassword } }) := by
  constructor
  · cases hc : jobData.credentials <;> simp [prepareJobCommonAsync, hc]
  · intro c hc
    simp [prepareJobCommonAsync, hc]

def jobDataF : JobData :=
  { archiveUrl := "https://x/archive.tar.gz",
    credentials := some { keystore :=
      { keystore := "BASE64", keystorePassword := "p1", keyAlias := "a",
        keyPassword := "p2" } } }

/-- C8 witness: the spec's example keystore is copied field for field. -/
theorem jobSecrets_buildCredentials_witness :
    jobDataF.credentials = some { keystore :=
      { keystore := "BASE64", keystorePassword := "p1", keyAlias := "a",
        keyPassword := "p2" } } ∧
    (prepareJobCommonAsync jenvE ctxE jobDataF).secrets.buildCredentials =
      some { keystore :=
        { dataBase64 := "BASE64", keystorePassword := "p1", keyAlias := "a",
          keyPassword := "p2" } } :=
  ⟨rfl, (jobSecrets_buildCredentials jenvE ctxE jobDataF).2
    { keystore := { keystore := "BASE64", keystorePassword := "p1", keyAlias := "a",
                    keyPassword := "p2" } } rfl⟩

/-- A JavaScript string-or-undefined value, as produced by indexing an array
out of range. -/
inductive JsStr where
  | str (s : String)
  | undef
  deriving DecidableEq

/-- JavaScript array indexing: `l[i]` is the element, or `undefined` when the
index is out of range. -/
def jsIndex (l : List String) (i : Nat) : JsStr :=
  match l.get? i with
  | some s => JsStr.str s
  | none => JsStr.undef

/-- Lexicographic comparison of character lists by code point. -/
def lexLe : List Char → List Char → Bool
  | [], _ => true
  | _ :: _, [] => false
  | x :: xs, y :: ys =>
      if x.toNat < y.toNat then true
      else if y.toNat < x.toNat then false
      else lexLe xs ys

/-- Lexicographic string comparison, as JavaScript default sort order. -/
def strLe (a b : String) : Bool := lexLe a.data b.data

/-- The ordering proposition behind `strLe`. -/
def strLeProp (a b : String) : Prop := strLe a b = true

/-- Insert into a sorted list, keeping it sorted. -/
def insertSorted (x : String) : List String → List String
  | [] => [x]
  | y :: ys => if strLe x y then x :: y :: ys else y :: insertSorted x ys

/-- Modelled from the spec: `lodash.sortBy` with the identity iteratee on
strings — lexicographic sort, here as insertion sort. -/
def sortStrings : List String → List String
  | [] => []
  | x :: xs => insertSorted x (sortStrings xs)

/-- Whether `pat` occurs as a contiguous run inside the list. -/
def seqContains (pat : List Char) : List Char → Bool
  | [] => pat.isEmpty
  | c :: rest => if pat.isPrefixOf (c :: rest) then true else seqContains pat rest

/-- Model of JavaScript `String.prototype.includes`. -/
def strContains (s pat : String) : Bool := seqContains pat.data s.data

/-- Modelled from the spec: the scheme discovery collaborator
(`IOSConfig.Scheme.getSchemesFromXcodeproj`), yielding the scheme names
declared in the native project under the given directory. -/
structure IosEnv where
  getSchemes : String → List String

/-- The iOS command context facts used by the build starter. -/
structure IosCommandCtx where
  projectDir : String
  nonInteractive : Bool
  deriving DecidableEq

/-- The iOS build profile facts used by the build starter. -/
structure IosBuildProfile where
  workflow : String
  scheme : Option String
  deriving DecidableEq

/-- The iOS build context. -/
structure IosBuildCtx where
  commandCtx : IosCommandCtx
  buildProfile : IosBuildProfile
  deriving DecidableEq

/-- The multiple-schemes log line (formatting markup not modelled). -/
def multipleSchemesMessage (sortedSchemes : List String) : String :=
  "We've found multiple schemes in your Xcode project: " ++
    String.intercalate ", " sortedSchemes

/-- The eas.json hint log line. -/
def specifySchemeMessage : String :=
  "You can specify the scheme you want to build at builds.ios.PROFILE_NAME.scheme in eas.json."

/-- The non-interactive choice log line; an undefined scheme prints as the
text `undefined`, as JavaScript template interpolation does. -/
def chosenSchemeMessage (scheme : JsStr) : String :=
  "You've run Expo CLI in non-interactive mode, choosing the " ++
    (match scheme with
     | JsStr.str s => s
     | JsStr.undef => "undefined") ++ " scheme."

/-- Source `resolveSchemeAsync` from the source: a single discovered scheme is
returned directly; otherwise the candidates are sorted, logged, and either
picked non-interactively (first sorted name not containing `tvOS`, falling
back to the first sorted name — JavaScript indexing, so `undefined` on an
empty list) or chosen through a select prompt. -/
def resolveSchemeAsync (ienv : IosEnv) (ctx : IosBuildCtx) (w : World) :
    Option JsStr × World :=
  let schemes := ienv.getSchemes ctx.commandCtx.projectDir
  if schemes.length = 1 then
    (some (jsIndex schemes 0), w)
  else
    let sortedSchemes := sortStrings schemes
    let w1 := { w with events := w.events ++
      [Event.logged (multipleSchemesMessage sortedSchemes),
       Event.logged specifySchemeMessage] }
    if ctx.commandCtx.nonInteractive then
      let withoutTvOS := sortedSchemes.filter (fun i => !strContains i "tvOS")
      let scheme :=
        if withoutTvOS.length > 0 then jsIndex withoutTvOS 0 else jsIndex sortedSchemes 0
      (some scheme,
        { w1 with events := w1.events ++ [Event.logged (chosenSchemeMessage scheme)] })
    else
      match w1.schemeChoices with
      | [] => (none, w1)
      | s :: rest =>
          (some (JsStr.str s),
            { w1 with schemeChoices := rest,
                      events := w1.events ++
                        [Event.asked "Which scheme would you like to build now?"] })

/-- The resolved project configuration handed to the generic build starter. -/
structure ProjectConfiguration where
  iosNativeProjectScheme : JsStr
  deriving DecidableEq

/-- Source `startIosBuildAsync` from the source, restricted to the facts modelled
here: for the generic workflow the scheme is the configured one or the
resolver's result (`??`), otherwise it stays undefined; the configuration is
handed to the external generic build starter, modelled as the function
argument `startBuild` (project-configuration sync has no observable effect on
these facts and is not modelled). -/
def startIosBuildAsync (ienv : IosEnv) (startBuild : ProjectConfiguration → String)
    (ctx : IosBuildCtx) (w : World) : Option String × World :=
  if ctx.buildProfile.workflow = workflowGeneric then
    match ctx.buildProfile.scheme with
    | some s => (some (startBuild { iosNativeProjectScheme := JsStr.str s }), w)
    | none =>
        match resolveSchemeAsync ienv ctx w with
        | (none, w1) => (none, w1)
        | (some js, w1) => (some (startBuild { iosNativeProjectScheme := js }), w1)
  else
    (some (startBuild { iosNativeProjectScheme := JsStr.undef }), w)

lemma lexLe_total : ∀ a b : List Char, lexLe a b = true ∨ lexLe b a = true := by
  intro a
  induction a with
  | nil => intro b; left; rfl
  | cons x xs ih =>
      intro b
      cases b with
      | nil => right; rfl
      | cons y ys =>
          simp only [lexLe]
          rcases Nat.lt_trichotomy x.toNat y.toNat with h | h | h
          · left; rw [if_pos h]
          · rw [if_neg (by omega), if_neg (by omega), if_neg (by omega), if_neg (by omega)]
            exact ih ys
          · right; rw [if_pos h]

lemma lexLe_trans : ∀ a b c : List Char,
    lexLe a b = true → lexLe b c = true → lexLe a c = true := by
  intro a
  induction a with
  | nil => intro b c h1 h2; rfl
  | cons x xs ih =>
      intro b c h1 h2
      cases b with
      | nil => exact absurd h1 (by simp [lexLe])
      | cons y ys =>
          cases c with
          | nil => exact absurd h2 (by simp [lexLe])
          | cons z zs =>
              simp only [lexLe] at h1 h2 ⊢
              rcases Nat.lt_trichotomy x.toNat y.toNat with hxy | hxy | hxy
              · rcases Nat.lt_trichotomy y.toNat z.toNat with hyz | hyz | hyz
                · rw [if_pos (by omega)]
                · rw [if_pos (by omega)]
                · rw [if_neg (by omega), if_pos (by omega)] at h2
                  exact absurd h2 (by simp)
              · rw [if_neg (by omega), if_neg (by omega)] at h1
                rcases Nat.lt_trichotomy y.toNat z.toNat with hyz | hyz | hyz
                · rw [if_pos (by omega)]
                · rw [if_neg (by omega), if_neg (by omega)] at h2
                  rw [if_neg (by omega), if_neg (by omega)]
                  exact ih ys zs h1 h2
                · rw [if_neg (by omega), if_pos (by omega)] at h2
                  exact absurd h2 (by simp)
              · rw [if_neg (by omega), if_pos (by omega)] at h1
                exact absurd h1 (by simp)

lemma strLe_total (a b : String) : strLe a b = true ∨ strLe b a = true :=
  lexLe_total a.data b.data

lemma strLe_trans (a b c : String) :
    strLe a b = true → strLe b c = true → strLe a c = true :=
  lexLe_trans a.data b.data c.data

lemma perm_insertSorted (x : String) :
    ∀ l : List String, (insertSorted x l).Perm (x :: l) := by
  intro l
  induction l with
  | nil => simp [insertSorted]
  | cons y ys ih =>
      simp only [insertSorted]
      by_cases hxy : strLe x y = true
      · rw [if_pos hxy]
      · rw [if_neg hxy]
        exact (ih.cons y).trans (List.Perm.swap x y ys)

lemma sorted_insertSorted (x : String) :
    ∀ l : List String, List.Sorted strLeProp l → List.Sorted strLeProp (insertSorted x l) := by
  intro l
  induction l with
  | nil => intro h; simp [insertSorted]
  | cons y ys ih =>
      intro h
      rw [List.sorted_cons] at h
      simp only [insertSorted]
      by_cases hxy : strLe x y = true
      · rw [if_pos hxy, List.sorted_cons]
        constructor
        · intro b hb
          rcases List.mem_cons.mp hb with hb | hb
          · rw [hb]; exact hxy
          · exact strLe_trans x y b hxy (h.1 b hb)
        · rw [List.sorted_cons]
          exact h
      · rw [if_neg hxy, List.sorted_cons]
        constructor
        · intro b hb
          have hmem := (perm_insertSorted x ys).mem_iff.mp hb
          rcases List.mem_cons.mp hmem with hb2 | hb2
          · rw [hb2]
            rcases strLe_total x y with ht | ht
            · exact absurd ht hxy
            · exact ht
          · exact h.1 b hb2
        · exact ih h.2

lemma sortStrings_perm : ∀ l : List String, (sortStrings l).Perm l := by
  intro l
  induction l with
  | nil => simp [sortStrings]
  | cons x xs ih =>
      simp only [sortStrings]
      exact (perm_insertSorted x (sortStrings xs)).trans (ih.cons x)

lemma sortStrings_sorted : ∀ l : List String, List.Sorted strLeProp (sortStrings l) := by
  intro l
  induction l with
  | nil => simp [sortStrings]
  | cons x xs ih => exact sorted_insertSorted x (sortStrings xs) ih

lemma filter_head_find (p : String → Bool) :
    ∀ l : List String, (l.filter p).head? = l.find? p := by
  intro l
  induction l with
  | nil => rfl
  | cons x xs ih =>
      by_cases h : p x = true
      · rw [List.find?_cons_of_pos _ h, List.filter_cons, if_pos h]
        rfl
      · rw [List.find?_cons_of_neg _ h, List.filter_cons, if_neg h]
        exact ih

/-- C9: a single discovered scheme is returned directly with no prompt and no
state change; with several candidates in non-interactive mode the result is
the first lexicographically sorted candidate whose name does not contain
`tvOS`, falling back to the first sorted candidate; and `sortStrings` indeed
produces a sorted permutation of the candidates. -/
theorem resolveScheme_policy (ienv : IosEnv) (ctx : IosBuildCtx) (w : World) :
    (∀ s, ienv.getSchemes ctx.commandCtx.projectDir = [s] →
      resolveSchemeAsync ienv ctx w = (some (JsStr.str s), w)) ∧
    (1 < (ienv.getSchemes ctx.commandCtx.projectDir).length →
      ctx.commandCtx.nonInteractive = true →
      (resolveSchemeAsync ienv ctx w).1 =
        some (match (sortStrings (ienv.getSchemes ctx.commandCtx.projectDir)).find?
                (fun i => !strContains i "tvOS") with
              | some s => JsStr.str s
              | none => jsIndex (sortStrings (ienv.getSchemes ctx.commandCtx.projectDir)) 0)) ∧
    List.Sorted strLeProp (sortStrings (ienv.getSchemes ctx.commandCtx.projectDir)) ∧
    (sortStrings (ienv.getSchemes ctx.commandCtx.projectDir)).Perm
      (ienv.getSchemes ctx.commandCtx.projectDir) := by
  refine ⟨?_, ?_, sortStrings_sorted _, sortStrings_perm _⟩
  · intro s hs
    simp [resolveSchemeAsync, hs, jsIndex]
  · intro hlen hni
    have hsplit := filter_head_find (fun i => !strContains i "tvOS")
      (sortStrings (ienv.getSchemes ctx.commandCtx.projectDir))
    simp only [resolveSchemeAsync]
    rw [if_neg (by omega), hni, if_pos rfl]
    cases hf : (sortStrings (ienv.getSchemes ctx.commandCtx.projectDir)).filter
        (fun i => !strContains i "tvOS") with
    | nil =>
        rw [hf] at hsplit
        rw [← hsplit]
        simp
    | cons x xs =>
        rw [hf] at hsplit
        rw [← hsplit]
        simp [jsIndex]

def ienvW : IosEnv := { getSchemes := fun _ => ["AppTV", "App"] }

def ctxW : IosBuildCtx :=
  { commandCtx := { projectDir := "/proj", nonInteractive := true },
    buildProfile := { workflow := "generic", scheme := none } }

def worldE : World :=
  { optInAnswers := [], textInputs := [], schemeChoices := [],
    warned := false, events := [] }

/-- C9 witness: candidates `AppTV`, `App` in non-interactive mode resolve to
`App`. -/
theorem resolveScheme_policy_witness :
    1 < (ienvW.getSchemes ctxW.commandCtx.projectDir).length ∧
    ctxW.commandCtx.nonInteractive = true ∧
    (resolveSchemeAsync ienvW ctxW worldE).1 = some (JsStr.str "App") := by
  refine ⟨by decide, rfl, ?_⟩
  have h := (resolveScheme_policy ienvW ctxW worldE).2.1 (by decide) rfl
  rw [h]
  decide

/-- C10: with zero discovered schemes in non-interactive mode,
`resolveSchemeAsync` neither raises an error nor prompts: it returns normally
with the JavaScript undefined value obtained by indexing the empty sorted
list — which is no candidate's name — and for a generic-workflow profile with
no configured scheme that undefined value flows on into the project
configuration handed to the build starter as if it were a valid scheme. -/
theorem resolveScheme_empty_undef (ienv : IosEnv)
    (startBuild : ProjectConfiguration → String) (ctx : IosBuildCtx) (w : World)
    (h0 : ienv.getSchemes ctx.commandCtx.projectDir = [])
    (hni : ctx.commandCtx.nonInteractive = true) :
    (resolveSchemeAsync ienv ctx w).1 = some JsStr.undef ∧
    (∀ s, (resolveSchemeAsync ienv ctx w).1 ≠ some (JsStr.str s)) ∧
    (ctx.buildProfile.workflow = workflowGeneric → ctx.buildProfile.scheme = none →
      (startIosBuildAsync ienv startBuild ctx w).1 =
        some (startBuild { iosNativeProjectScheme := JsStr.undef })) := by
  have h1 : (resolveSchemeAsync ienv ctx w).1 = some JsStr.undef := by
    simp [resolveSchemeAsync, h0, hni, sortStrings, jsIndex]
  refine ⟨h1, fun s => by rw [h1]; simp, ?_⟩
  intro hwf hsch
  simp only [startIosBuildAsync]
  rw [if_pos hwf, hsch]
  rcases hres : resolveSchemeAsync ienv ctx w with ⟨o, w1⟩
  rw [hres] at h1
  have ho : o = some JsStr.undef := h1
  rw [ho]

def startBuildW : ProjectConfiguration → String :=
  fun cfg =>
    match cfg.iosNativeProjectScheme with
    | JsStr.str s => s
    | JsStr.undef => "build-with-undefined-scheme"

def ienvZ : IosEnv := { getSchemes := fun _ => [] }

/-- C10 witness: zero candidates, non-interactive, generic workflow with no
configured scheme. -/
theorem resolveScheme_empty_undef_witness :
    ienvZ.getSchemes ctxW.commandCtx.projectDir = [] ∧
    ctxW.commandCtx.nonInteractive = true ∧
    ctxW.buildProfile.workflow = workflowGeneric ∧
    ctxW.buildProfile.scheme = none ∧
    (resolveSchemeAsync ienvZ ctxW worldE).1 = some JsStr.undef ∧
    (startIosBuildAsync ienvZ startBuildW ctxW worldE).1 =
      some (startBuildW { iosNativeProjectScheme := JsStr.undef }) := by
  have h := resolveScheme_empty_undef ienvZ startBuildW ctxW worldE rfl rfl
  exact ⟨rfl, rfl, rfl, rfl, h.1, h.2.2 rfl rfl⟩

lemma untildify_no_tilde (home s : String) (h : ∀ r, s.data ≠ '~' :: r) :
    untildify home s = s := by
  have hc : ∀ c rest, s.data = c :: rest → ¬(c = '~') := by
    intro c rest hd hcc
    exact h rest (by rw [hd, hcc])
  unfold untildify
  rcases hd : s.data with _ | ⟨c, rest⟩
  · rfl
  · exact if_neg (hc c rest hd)

lemma absolute_no_tilde (s : String) (ha : isAbsolutePath s = true) :
    ∀ r, s.data ≠ '~' :: r := by
  intro r hr
  unfold isAbsolutePath at ha
  rw [hr] at ha
  simp at ha

/-- C5 (amended): `produceAbsolutePath` first trims surrounding whitespace
(the source's `filePath.trim()`); on a trim-stable input it returns an
already-absolute path unchanged, expands a leading `~/` to the home
directory, and resolves any other non-absolute input against the current
working directory. -/
theorem produceAbsolutePath_resolution (env : Env) (s : String) (ht : jsTrim s = s) :
    (isAbsolutePath s = true → produceAbsolutePath env s = s) ∧
    (∀ r, s.data = '~' :: '/' :: r → isAbsolutePath env.home = true →
      produceAbsolutePath env s = env.home ++ String.mk ('/' :: r)) ∧
    (isAbsolutePath s = false → (∀ r, s.data ≠ '~' :: r) →
      produceAbsolutePath env s = resolvePath env.cwd s) := by
  refine ⟨?_, ?_, ?_⟩
  · intro ha
    simp only [produceAbsolutePath]
    rw [ht, untildify_no_tilde env.home s (absolute_no_tilde s ha), ha]
    simp
  · intro r hd hhome
    simp only [produceAbsolutePath]
    rw [ht]
    have hu : untildify env.home s = env.home ++ String.mk ('/' :: r) := by
      unfold untildify
      rw [hd]
      simp
    rw [hu]
    have habs : isAbsolutePath (env.home ++ String.mk ('/' :: r)) = true := by
      unfold isAbsolutePath at hhome ⊢
      rw [String.data_append]
      rcases hh : env.home.data with _ | ⟨c, t⟩
      · rw [hh] at hhome
        simp at hhome
      · rw [hh] at hhome
        simp only [List.cons_append]
        simpa using hhome
    rw [habs]
    simp
  · intro ha hnt
    simp only [produceAbsolutePath]
    rw [ht, untildify_no_tilde env.home s hnt, ha]
    simp

/-- C5 counterexample: `"/abs/foo.txt "` (trailing space) is an absolute path
per `path.isAbsolute`, yet `produceAbsolutePath` returns the trimmed string
rather than the input unchanged. -/
theorem produceAbsolutePath_trim_counterexample :
    isAbsolutePath "/abs/foo.txt " = true ∧
    produceAbsolutePath envA "/abs/foo.txt " ≠ "/abs/foo.txt " ∧
    produceAbsolutePath envA "/abs/foo.txt " = "/abs/foo.txt" := by
  refine ⟨by decide, by decide, by decide⟩

/-- C5 witness: the spec's relative example resolved against the cwd, and a
tilde example expanded to the home directory. -/
theorem produceAbsolutePath_resolution_witness :
    jsTrim "relative/foo.txt" = "relative/foo.txt" ∧
    isAbsolutePath "relative/foo.txt" = false ∧
    produceAbsolutePath envA "relative/foo.txt" = resolvePath "/w" "relative/foo.txt" ∧
    resolvePath "/w" "relative/foo.txt" = "/w/relative/foo.txt" ∧
    produceAbsolutePath envA "~/foo.txt" = "/home/u" ++ String.mk ('/' :: "foo.txt".data) := by
  refine ⟨by decide, by decide, ?_, by decide, ?_⟩
  · exact (produceAbsolutePath_resolution envA "relative/foo.txt" (by decide)).2.2
      (by decide) (by intro r hr; injection hr with h1 _; exact absurd h1 (by decide))
  · exact (produceAbsolutePath_resolution envA "~/foo.txt" (by decide)).2.1
      "foo.txt".data (by decide) (by decide)

end EasCli
